import Mathlib

/-!
Verification of the URI codec module `src/common/uri.ts` of the
vscode-pull-request-github extension.

The module packs metadata records into the query component of custom-scheme
URIs as JSON text and unpacks them again.  We shallowly embed the module:

* JSON values are the inductive `Json`; `JSON.stringify` applied to the
  parameter records the module builds is embedded by per-record serializers
  built from `flatChars` (ECMAScript semantics on those records: keys in
  insertion order, `undefined`-valued optional fields omitted, strings quoted
  with the standard escapes, booleans and integers as bare literals, no
  whitespace); `JSON.parse` is embedded by `Json.parse`, a recursive-descent
  parser for the JSON grammar.  Numbers are restricted to the integer
  fragment (the records this module writes carry only integers) and string
  escapes `\uXXXX` denoting lone UTF-16 surrogates are rejected (Lean strings
  contain only Unicode scalar values); neither restriction is exercised by
  any statement below.
* The host editor's `Uri` is the structure `Uri` (scheme/authority/path/
  query/fragment); `uri.with({...})` is a record update, which preserves the
  untouched components exactly as the host API does.
* External collaborators (`path` utilities, `Uri.fsPath`, `Repository`,
  `TemporaryState`) are function-valued structure parameters; fallible
  collaborators return `Except Unit _`, where `Except.error ()` stands for a
  thrown error / rejected promise.
-/

/-- JSON values.  Numbers carry the integer fragment only (see module
comment); objects are association lists in insertion order. -/
inductive Json where
  | null : Json
  | bool (b : Bool) : Json
  | num (n : Int) : Json
  | str (s : String) : Json
  | arr (elems : List Json) : Json
  | obj (fields : List (String × Json)) : Json

/-- Lowercase hexadecimal digit character for `n < 16`, as produced by
`JSON.stringify` in `\u00XX` escapes. -/
def hexDigitChar (n : Nat) : Char :=
  if n < 10 then Char.ofNat (48 + n) else Char.ofNat (87 + n)

/-- Decimal digit character for `n < 10`. -/
def digitChar (n : Nat) : Char :=
  Char.ofNat (48 + n)

/-- `JSON.stringify` string escaping of one character (ECMAScript
`QuoteJSONString`): `"` and `\` get a backslash, the five control characters
with short forms use them, other control characters use `\u00XX` with
lowercase hex, everything else is emitted literally. -/
def escChar (c : Char) : List Char :=
  if c = '"' then ['\\', '"']
  else if c = '\\' then ['\\', '\\']
  else if c = '\x08' then ['\\', 'b']
  else if c = '\t' then ['\\', 't']
  else if c = '\n' then ['\\', 'n']
  else if c = '\x0c' then ['\\', 'f']
  else if c = '\r' then ['\\', 'r']
  else if c.toNat < 0x20 then
    ['\\', 'u', '0', '0', hexDigitChar (c.toNat / 16), hexDigitChar (c.toNat % 16)]
  else [c]

/-- Escape every character of a string body. -/
def escStr : List Char → List Char
  | [] => []
  | c :: cs => escChar c ++ escStr cs

/-- A JSON string literal: quoted and escaped. -/
def quoteStr (s : String) : List Char :=
  '"' :: (escStr s.data ++ ['"'])

/-- Decimal digits of `n`, most significant first, no leading zeros
(`['0']` for zero).  `fuel` bounds the recursion; any `fuel > n` is enough. -/
def natDigits : Nat → Nat → List Char
  | 0, _ => []
  | fuel + 1, n =>
    if n < 10 then [digitChar n] else natDigits fuel (n / 10) ++ [digitChar (n % 10)]

/-- `JSON.stringify` of an integer: optional minus sign then decimal digits. -/
def intChars (n : Int) : List Char :=
  if n < 0 then '-' :: natDigits (n.natAbs + 1) n.natAbs
  else natDigits (n.toNat + 1) n.toNat

/-- The JSON literal values this module ever writes into a query record. -/
inductive JLit where
  | str (s : String) : JLit
  | num (n : Int) : JLit
  | bool (b : Bool) : JLit
  | null : JLit
deriving DecidableEq

/-- The `Json` value denoted by a literal. -/
def JLit.toJson : JLit → Json
  | .str s => .str s
  | .num n => .num n
  | .bool b => .bool b
  | .null => .null

/-- The characters `JSON.stringify` emits for a literal value. -/
def JLit.chars : JLit → List Char
  | .str s => quoteStr s
  | .num n => intChars n
  | .bool true => ['t', 'r', 'u', 'e']
  | .bool false => ['f', 'a', 'l', 's', 'e']
  | .null => ['n', 'u', 'l', 'l']

/-- The members of a stringified flat object: `"key":value` pairs joined by
commas, keys in insertion order. -/
def membersChars : List (String × JLit) → List Char
  | [] => []
  | (k, v) :: rest =>
    quoteStr k ++ (':' :: JLit.chars v) ++
      match rest with
      | [] => []
      | _ :: _ => ',' :: membersChars rest

/-- A stringified flat object, braces included. -/
def flatChars (fields : List (String × JLit)) : List Char :=
  '{' :: (membersChars fields ++ ['}'])

/-- `JSON.stringify` of a flat record with the given fields. -/
def stringifyFlat (fields : List (String × JLit)) : String :=
  ⟨flatChars fields⟩

/-- The `Json` object a flat record denotes. -/
def jsonOfFields (fields : List (String × JLit)) : Json :=
  .obj (fields.map fun kv => (kv.1, kv.2.toJson))

/-- Skip JSON insignificant whitespace. -/
def skipWs : List Char → List Char
  | [] => []
  | c :: rest =>
    if c = ' ' ∨ c = '\t' ∨ c = '\n' ∨ c = '\r' then skipWs rest else c :: rest

/-- Value of a decimal digit character. -/
def digitVal (c : Char) : Option Nat :=
  if '0' ≤ c ∧ c ≤ '9' then some (c.toNat - 48) else none

/-- Greedily consume decimal digits, accumulating their value. -/
def takeDigits (acc : Nat) : List Char → Nat × List Char
  | [] => (acc, [])
  | c :: rest =>
    match digitVal c with
    | some d => takeDigits (acc * 10 + d) rest
    | none => (acc, c :: rest)

/-- Does the input start with a decimal digit? -/
def headDigit : List Char → Bool
  | [] => false
  | c :: _ => (digitVal c).isSome

/-- Parse a JSON unsigned integer: `0`, or a nonzero digit followed by more
digits (leading zeros are a JSON syntax error). -/
def parseNat : List Char → Option (Nat × List Char)
  | [] => none
  | c :: rest =>
    if c = '0' then
      if headDigit rest then none else some (0, rest)
    else
      match digitVal c with
      | some d => if d = 0 then none else some (takeDigits d rest)
      | none => none

/-- Value of a hexadecimal digit character (either case). -/
def hexVal (c : Char) : Option Nat :=
  if '0' ≤ c ∧ c ≤ '9' then some (c.toNat - 48)
  else if 'a' ≤ c ∧ c ≤ 'f' then some (c.toNat - 87)
  else if 'A' ≤ c ∧ c ≤ 'F' then some (c.toNat - 55)
  else none

/-- The character denoted by a single-character JSON string escape. -/
def simpleEsc (c : Char) : Option Char :=
  if c = '"' then some '"'
  else if c = '\\' then some '\\'
  else if c = '/' then some '/'
  else if c = 'b' then some '\x08'
  else if c = 'f' then some '\x0c'
  else if c = 'n' then some '\n'
  else if c = 'r' then some '\r'
  else if c = 't' then some '\t'
  else none

/-- Decode one string escape (the backslash already consumed): a `\uXXXX`
escape denoting a Unicode scalar value, or a single-character escape.
Returns the decoded character and the remaining input. -/
def unescape : List Char → Option (Char × List Char)
  | 'u' :: h3 :: h2 :: h1 :: h0 :: rest2 =>
    match hexVal h3, hexVal h2, hexVal h1, hexVal h0 with
    | some a, some b, some e, some d =>
      let n := ((a * 16 + b) * 16 + e) * 16 + d
      if n < 0xd800 ∨ (0xe000 ≤ n ∧ n < 0x110000) then some (Char.ofNat n, rest2)
      else none
    | _, _, _, _ => none
  | e :: rest2 => (simpleEsc e).map fun ec => (ec, rest2)
  | [] => none

/-- Parse a JSON string body (the opening quote already consumed) up to and
including the closing quote, returning the decoded characters and the rest
of the input.  Unescaped control characters are a syntax error; `\uXXXX`
escapes must denote Unicode scalar values (see module comment).  `fuel`
bounds the recursion; every step consumes at least one input character, so
any `fuel` beyond the input length is enough. -/
def parseStr : Nat → List Char → Option (List Char × List Char)
  | 0, _ => none
  | _ + 1, [] => none
  | fuel + 1, c :: rest =>
    if c = '"' then some ([], rest)
    else if c = '\\' then
      match unescape rest with
      | some er => (parseStr fuel er.2).map fun p => (er.1 :: p.1, p.2)
      | none => none
    else if c.toNat < 0x20 then none
    else (parseStr fuel rest).map fun p => (c :: p.1, p.2)

/-- Consume the literal characters `lit` from the front of the input. -/
def expectChars : List Char → List Char → Option (List Char)
  | [], s => some s
  | _ :: _, [] => none
  | c :: cs, d :: ds => if c = d then expectChars cs ds else none

mutual

/-- Parse one JSON value (leading whitespace allowed), returning it and the
rest of the input.  `fuel` bounds the nesting depth; `Json.parse` supplies
more fuel than any input can need. -/
def parseVal : Nat → List Char → Option (Json × List Char)
  | 0, _ => none
  | fuel + 1, s =>
    match skipWs s with
    | [] => none
    | c :: rest =>
      if c = 't' then
        (expectChars ['r', 'u', 'e'] rest).map fun r => (.bool true, r)
      else if c = 'f' then
        (expectChars ['a', 'l', 's', 'e'] rest).map fun r => (.bool false, r)
      else if c = 'n' then
        (expectChars ['u', 'l', 'l'] rest).map fun r => (.null, r)
      else if c = '"' then
        (parseStr (rest.length + 1) rest).map fun p => (.str ⟨p.1⟩, p.2)
      else if c = '{' then
        match skipWs rest with
        | '}' :: r => some (.obj [], r)
        | _ => (parseMembers fuel rest).map fun p => (.obj p.1, p.2)
      else if c = '[' then
        match skipWs rest with
        | ']' :: r => some (.arr [], r)
        | _ => (parseElems fuel rest).map fun p => (.arr p.1, p.2)
      else if c = '-' then
        (parseNat rest).map fun p => (.num (-(p.1 : Int)), p.2)
      else
        (parseNat (c :: rest)).map fun p => (.num (p.1 : Int), p.2)

/-- Parse the members of a non-empty JSON object after the opening brace:
`"key" : value` pairs separated by commas, ending at the closing brace
(consumed).  A comma must be followed by another member. -/
def parseMembers : Nat → List Char → Option (List (String × Json) × List Char)
  | 0, _ => none
  | fuel + 1, s =>
    match skipWs s with
    | '"' :: rest =>
      (parseStr (rest.length + 1) rest).bind fun kp =>
        match skipWs kp.2 with
        | ':' :: r2 =>
          (parseVal fuel r2).bind fun vp =>
            match skipWs vp.2 with
            | ',' :: r4 =>
              (parseMembers fuel r4).map fun tp => ((⟨kp.1⟩, vp.1) :: tp.1, tp.2)
            | '}' :: r4 => some ([(⟨kp.1⟩, vp.1)], r4)
            | _ => none
        | _ => none
    | _ => none

/-- Parse the elements of a non-empty JSON array after the opening bracket,
ending at the closing bracket (consumed). -/
def parseElems : Nat → List Char → Option (List Json × List Char)
  | 0, _ => none
  | fuel + 1, s =>
    (parseVal fuel s).bind fun vp =>
      match skipWs vp.2 with
      | ',' :: r2 => (parseElems fuel r2).map fun tp => (vp.1 :: tp.1, tp.2)
      | ']' :: r2 => some ([vp.1], r2)
      | _ => none

end

/-- Embedding of `JSON.parse` on the grammar fragment described in the module
comment: `some` is a successful parse, `none` is a thrown `SyntaxError`. -/
def Json.parse (s : String) : Option Json :=
  match parseVal (s.data.length + 1) s.data with
  | some (v, rest) => if skipWs rest = [] then some v else none
  | none => none

/-- Last-binding-wins lookup in an object's fields. -/
def jgetFields : List (String × Json) → String → Option Json
  | [], _ => none
  | (k', v) :: rest, k =>
    match jgetFields rest k with
    | some v' => some v'
    | none => if k' = k then some v else none

/-- JavaScript property read on a parsed JSON value: `none` is `undefined`.
On objects the last binding of a duplicated key wins, as in `JSON.parse`. -/
def jget : Json → String → Option Json
  | .obj fields, k => jgetFields fields k
  | _, _ => none

/-- JavaScript truthiness of a property read (`none` is `undefined`). -/
def jsTruthy : Option Json → Bool
  | none => false
  | some .null => false
  | some (.bool b) => b
  | some (.num n) => n ≠ 0
  | some (.str s) => s ≠ ""
  | some (.arr _) => true
  | some (.obj _) => true

/-! ## The host `Uri` type and external collaborators -/

/-- The host editor's opaque URI value: its five textual components.
`uri.with({...})` from the host API is embedded as a record update, which
preserves every component not mentioned. -/
structure Uri where
  scheme : String
  authority : String
  path : String
  query : String
  fragment : String

/-- Host-platform path and URI services the module consumes: Node's
`path.resolve`, `path.posix.resolve`, `path.dirname`, `path.basename`, and
the host's platform-dependent `Uri.fsPath` rendering.  They are opaque
collaborators, so they are fields of a structure the embedding abstracts
over. -/
structure Platform where
  resolve : String → String → String
  posixResolve : String → String → String
  dirname : String → String
  basename : String → String
  fsPath : Uri → String

/-- Modelled from the spec: the change-type enum `GitChangeType` of
`src/common/file.ts`, which is not part of the provided sources — "an
enumerated classification of a file's diff status (added, modified, deleted,
renamed, etc.)", a TypeScript numeric enum. -/
inductive GitChangeType where
  | ADD | COPY | DELETE | MODIFY | RENAME | TYPE | UNKNOWN | UNMERGED
deriving DecidableEq

/-- The numeric value a `GitChangeType` member serializes to. -/
def GitChangeType.code : GitChangeType → Int
  | .ADD => 0
  | .COPY => 1
  | .DELETE => 2
  | .MODIFY => 3
  | .RENAME => 4
  | .TYPE => 5
  | .UNKNOWN => 6
  | .UNMERGED => 7

/-- Modelled from the spec: the git remote record exposed by the PR model —
"a string identifying the git remote hosting the PR". -/
structure Remote where
  remoteName : String

/-- Modelled from the spec: the repository object of the PR model. -/
structure GitHubRepository where
  remote : Remote

/-- Modelled from the spec: `PullRequestModel` of
`src/github/pullRequestModel.ts`, not part of the provided sources — it
"exposes `number` and `githubRepository.remote.remoteName`". -/
structure PullRequestModel where
  number : Int
  githubRepository : GitHubRepository

/-! ## The parameter records of `src/common/uri.ts` -/

/-- `ReviewUriParams` (uri.ts, lines 15-22). -/
structure ReviewUriParams where
  path : String
  ref : Option String
  commit : Option String
  base : Bool
  isOutdated : Bool
  rootPath : String
deriving DecidableEq

/-- `PRUriParams` (uri.ts, lines 28-36). -/
structure PRUriParams where
  baseCommit : String
  headCommit : String
  isBase : Bool
  fileName : String
  prNumber : Int
  status : GitChangeType
  remoteName : String
deriving DecidableEq

/-- `GitHubUriParams` (uri.ts, lines 44-48). -/
structure GitHubUriParams where
  fileName : String
  branch : String
  isEmpty : Option Bool
deriving DecidableEq

/-- `FileChangeNodeUriParams` (uri.ts, lines 119-123). -/
structure FileChangeNodeUriParams where
  prNumber : Int
  fileName : String
  status : Option GitChangeType
deriving DecidableEq

/-- `GitUriOptions` (uri.ts, lines 55-59).  The two optional fields are
`Option`s; `none` is an absent (`undefined`) property. -/
structure GitUriOptions where
  replaceFileExtension : Option Bool
  submoduleOf : Option String
  base : Bool

/-! ## The codec operations -/

/-- The fields `JSON.stringify` serializes for a `ReviewUriParams` record, in
the insertion order of `toReviewUri`'s object literal: `path`, `ref`,
`commit`, `base`, `isOutdated`, `rootPath`; `undefined`-valued optional
fields are omitted. -/
def reviewFields (p : ReviewUriParams) : List (String × JLit) :=
  [("path", JLit.str p.path)] ++
    (match p.ref with | some r => [("ref", JLit.str r)] | none => []) ++
    (match p.commit with | some c => [("commit", JLit.str c)] | none => []) ++
    [("base", JLit.bool p.base), ("isOutdated", JLit.bool p.isOutdated),
      ("rootPath", JLit.str p.rootPath)]

/-- `JSON.stringify` of a `ReviewUriParams` record. -/
def stringifyReview (p : ReviewUriParams) : String :=
  stringifyFlat (reviewFields p)

/-- The `Json` object a `ReviewUriParams` record serializes to. -/
def reviewJson (p : ReviewUriParams) : Json :=
  jsonOfFields (reviewFields p)

/-- `fromReviewUri` (uri.ts, lines 24-26): `JSON.parse` on the query with no
`try`/`catch` — a parse failure is thrown to the caller (`Except.error`).
The `ReviewUriParams` return type is an unchecked TypeScript cast, so the
runtime value is the raw parse result. -/
def fromReviewUri (query : String) : Except Unit Json :=
  match Json.parse query with
  | some j => Except.ok j
  | none => Except.error ()

/-- `fromPRUri` (uri.ts, lines 38-42): `JSON.parse` on the query inside
`try`/`catch` — a parse failure falls off the function, returning
`undefined` (`none`).  The `PRUriParams` cast is unchecked, so a successful
parse returns the raw parse result whatever its shape. -/
def fromPRUri (uri : Uri) : Option Json :=
  Json.parse uri.query

/-- `fromGitHubURI` (uri.ts, lines 49-53): same catch-to-`undefined` pattern
as `fromPRUri`, with an unchecked `GitHubUriParams` cast. -/
def fromGitHubURI (uri : Uri) : Option Json :=
  Json.parse uri.query

/-- `fromFileChangeNodeUri` (uri.ts, lines 138-142): parses the query only
when it is truthy (non-empty); a falsy query or a parse failure yields
`undefined`.  The `FileChangeNodeUriParams` cast is unchecked. -/
def fromFileChangeNodeUri (uri : Uri) : Option Json :=
  if uri.query = "" then none else Json.parse uri.query

/-- The `params` object literal built inside `toReviewUri` (uri.ts, lines
97-104): `path` is `filePath` when that argument is truthy (a present,
non-empty string), else the input URI's path; `commit` is always present. -/
def mkReviewUriParams (uri : Uri) (filePath : Option String) (ref : Option String)
    (commit : String) (isOutdated : Bool) (options : GitUriOptions) (rootUri : Uri) :
    ReviewUriParams :=
  { path :=
      match filePath with
      | some s => if s = "" then uri.path else s
      | none => uri.path
    ref := ref
    commit := some commit
    base := options.base
    isOutdated := isOutdated
    rootPath := rootUri.path }

/-- `toReviewUri` (uri.ts, lines 88-117): builds the params record, takes the
input URI's path — appending a literal `.git` when
`options.replaceFileExtension` is truthy — and returns
`uri.with({scheme: review, path, query: JSON.stringify(params)})`. -/
def toReviewUri (uri : Uri) (filePath : Option String) (ref : Option String)
    (commit : String) (isOutdated : Bool) (options : GitUriOptions) (rootUri : Uri) :
    Uri :=
  let params := mkReviewUriParams uri filePath ref commit isOutdated options rootUri
  let path := if options.replaceFileExtension = some true then uri.path ++ ".git" else uri.path
  { uri with scheme := "review", path := path, query := stringifyReview params }

/-- The `params` record built inside `toPRUri` (uri.ts, lines 153-161), in
insertion order `baseCommit`, `headCommit`, `isBase`, `fileName`,
`prNumber`, `status`, `remoteName`; `prNumber` and `remoteName` come from
the supplied PR model. -/
def mkPRUriParams (pullRequestModel : PullRequestModel) (baseCommit headCommit : String)
    (fileName : String) (base : Bool) (status : GitChangeType) : PRUriParams :=
  { baseCommit := baseCommit
    headCommit := headCommit
    isBase := base
    fileName := fileName
    prNumber := pullRequestModel.number
    status := status
    remoteName := pullRequestModel.githubRepository.remote.remoteName }

/-- The fields `JSON.stringify` serializes for a `PRUriParams` record. -/
def prFields (p : PRUriParams) : List (String × JLit) :=
  [("baseCommit", JLit.str p.baseCommit), ("headCommit", JLit.str p.headCommit),
    ("isBase", JLit.bool p.isBase), ("fileName", JLit.str p.fileName),
    ("prNumber", JLit.num p.prNumber), ("status", JLit.num p.status.code),
    ("remoteName", JLit.str p.remoteName)]

/-- `JSON.stringify` of a `PRUriParams` record. -/
def stringifyPR (p : PRUriParams) : String :=
  stringifyFlat (prFields p)

/-- The `Json` object a `PRUriParams` record serializes to. -/
def prJson (p : PRUriParams) : Json :=
  jsonOfFields (prFields p)

/-- `toPRUri` (uri.ts, lines 144-170): builds the params record from the PR
model and arguments, keeps the input URI's path, and returns
`uri.with({scheme: pr, path, query: JSON.stringify(params)})`. -/
def toPRUri (uri : Uri) (pullRequestModel : PullRequestModel)
    (baseCommit headCommit : String) (fileName : String) (base : Bool)
    (status : GitChangeType) : Uri :=
  let params := mkPRUriParams pullRequestModel baseCommit headCommit fileName base status
  let path := uri.path
  { uri with scheme := "pr", path := path, query := stringifyPR params }

/-- `toResourceUri` (uri.ts, lines 125-136): builds a `filechange`-scheme URI
carrying `{prNumber, fileName, status}`; the path is not replaced. -/
def toResourceUri (uri : Uri) (prNumber : Int) (fileName : String)
    (status : GitChangeType) : Uri :=
  let fields := [("prNumber", JLit.num prNumber), ("fileName", JLit.str fileName),
    ("status", JLit.num status.code)]
  { uri with scheme := "filechange", query := stringifyFlat fields }

/-- The string `enum Schemas` member `file` (uri.ts, lines 172-174). -/
def Schemas.file : String := "file"

/-- `resolvePath` (uri.ts, lines 176-182): platform-native resolution against
`fsPath` for `file`-scheme URIs, POSIX resolution against `path` otherwise. -/
def resolvePath (pl : Platform) (src : Uri) (dest : String) : String :=
  if src.scheme = Schemas.file then pl.resolve (pl.fsPath src) dest
  else pl.posixResolve src.path dest

/-- `ImageMimetypes` (uri.ts, line 61). -/
def ImageMimetypes : List String :=
  ["image/png", "image/gif", "image/jpeg", "image/webp", "image/tiff", "image/bmp"]

/-- Modelled from the spec: the `object` field of the record returned by the
`Repository` collaborator's `getObjectDetails` — `getObjectDetails(ref, path)
-> {object}`. -/
structure ObjectDetails where
  object : String

/-- Modelled from the spec: the external `Repository` collaborator —
`getObjectDetails(ref, path) -> {object}`, `detectObjectType(object) ->
{mimetype}`, `buffer(ref, path) -> bytes`.  Each call may reject
(`Except.error`).  The `ref` argument receives whatever value the
destructured `commit`/`baseCommit`/`headCommit` property held (`none` is
`undefined`); byte buffers are opaque strings here. -/
structure Repository where
  getObjectDetails : Option Json → String → Except Unit ObjectDetails
  detectObjectType : String → Except Unit String
  buffer : Option Json → String → Except Unit String

/-- Modelled from the spec: the temporary-state store —
`write(directory, basename, bytes) -> Uri`, which may reject. -/
structure TemporaryState where
  write : String → String → String → Except Unit Uri

/-- Destructuring an object pattern from a JavaScript value: destructuring
`null` throws a TypeError; every other `JSON.parse` result (objects, but
also primitives, whose property reads merely yield `undefined`) succeeds. -/
def destructureGuard : Json → Except Unit Unit
  | Json.null => Except.error ()
  | _ => Except.ok ()

/-- The ref `asImageDataURI` selects: the review `commit` when the scheme is
`review`, else `baseCommit` or `headCommit` by the truthiness of `isBase`
(uri.ts, line 71). -/
def refOf (uri : Uri) (j : Json) : Option Json :=
  if uri.scheme = "review" then jget j "commit"
  else if jsTruthy (jget j "isBase") then jget j "baseCommit" else jget j "headCommit"

/-- Outcome of the `try` block of `asImageDataURI` short of the final
`return TemporaryState.write(...)`: either a plain `return;`/fall-through
(`undefined`), or the decision to return the write call's promise with these
arguments. -/
inductive ImageStep where
  | done : ImageStep
  | write (dir base contents : String) : ImageStep

/-- The `try` block of `asImageDataURI` (uri.ts, lines 69-82) up to the point
where control leaves it: parse the query (a failure throws), destructure it
(destructuring `null` throws a TypeError), select the ref, await
`getObjectDetails` and `detectObjectType`, return `undefined` for
`text/plain`, and for a recognized image mimetype await `buffer`, compute
`dirname`/`basename` of the destructured `path` property (a non-string
throws), and return the `TemporaryState.write` promise.  Any other mimetype
falls through to `undefined`. -/
def asImageDataURITry (pl : Platform) (repository : Repository) (uri : Uri) :
    Except Unit ImageStep :=
  match Json.parse uri.query with
  | none => Except.error ()
  | some j =>
    match destructureGuard j with
    | Except.error _ => Except.error ()
    | Except.ok _ =>
      match repository.getObjectDetails (refOf uri j) (pl.fsPath uri) with
      | Except.error _ => Except.error ()
      | Except.ok od =>
        match repository.detectObjectType od.object with
        | Except.error _ => Except.error ()
        | Except.ok mimetype =>
          if mimetype = "text/plain" then Except.ok ImageStep.done
          else if ImageMimetypes.contains mimetype then
            match repository.buffer (refOf uri j) (pl.fsPath uri) with
            | Except.error _ => Except.error ()
            | Except.ok contents =>
              match jget j "path" with
              | some (Json.str s) =>
                Except.ok (ImageStep.write (pl.dirname s) (pl.basename s) contents)
              | _ => Except.error ()
          else Except.ok ImageStep.done

/-- `asImageDataURI` (uri.ts, lines 68-86).  The `catch` maps an error thrown
inside the `try` block to `undefined` (`Except.ok none`).  The final
`return TemporaryState.write(...)` returns the write call's promise
*without awaiting it*, so the `catch` does not cover it: the async function's
result promise adopts it, and a write rejection propagates to the caller
(`Except.error`). -/
def asImageDataURI (pl : Platform) (temp : TemporaryState) (repository : Repository)
    (uri : Uri) : Except Unit (Option Uri) :=
  match asImageDataURITry pl repository uri with
  | Except.error _ => Except.ok none
  | Except.ok ImageStep.done => Except.ok none
  | Except.ok (ImageStep.write d b c) => (temp.write d b c).map some

/-- An optional string property: absent is fine, present must be a string. -/
def optStrProp : Option Json → Option (Option String)
  | none => some none
  | some (Json.str s) => some (some s)
  | some _ => none

/-- Read a `ReviewUriParams` record back off a parsed JSON value, as a caller
reading the properties would: required string and boolean fields must be
present with that type, optional string fields may be absent. -/
def reviewParamsOfJson (j : Json) : Option ReviewUriParams :=
  match jget j "path", jget j "base", jget j "isOutdated", jget j "rootPath" with
  | some (Json.str path), some (Json.bool base), some (Json.bool isOutdated),
      some (Json.str rootPath) =>
    match optStrProp (jget j "ref"), optStrProp (jget j "commit") with
    | some ref, some commit => some ⟨path, ref, commit, base, isOutdated, rootPath⟩
    | _, _ => none
  | _, _, _, _ => none

/-- The `path` field carried inside a review/PR URI's query JSON. -/
def queryPathField (uri : Uri) : Option String :=
  match Json.parse uri.query with
  | some j =>
    match jget j "path" with
    | some (Json.str s) => some s
    | _ => none
  | none => none

/-! ## Round-trip machinery: characters and string escapes -/

/-! ## Concrete instances used by closed statements -/

/-- A concrete platform whose services tag their arguments, so that which
service produced a result is visible in it. -/
def idPlatform : Platform where
  resolve := fun a b => "N:" ++ a ++ "|" ++ b
  posixResolve := fun a b => "P:" ++ a ++ "|" ++ b
  dirname := fun s => "dir(" ++ s ++ ")"
  basename := fun s => "base(" ++ s ++ ")"
  fsPath := fun u => u.path

/-- A repository whose lookups all succeed and whose type detection reports
a PNG image. -/
def pngRepository : Repository where
  getObjectDetails := fun _ _ => Except.ok ⟨"blob"⟩
  detectObjectType := fun _ => Except.ok "image/png"
  buffer := fun _ _ => Except.ok "bytes"

/-- A temporary store whose write succeeds with a recognizable URI. -/
def okTempState : TemporaryState where
  write := fun d b c => Except.ok ⟨"file", "", d ++ "/" ++ b ++ "/" ++ c, "", ""⟩

/-- A temporary store whose write rejects. -/
def failTempState : TemporaryState where
  write := fun _ _ _ => Except.error ()

/-- A `review`-scheme URI whose query parses to an object with a string
`path` and a `commit`. -/
def reviewImageUri : Uri :=
  { scheme := "review", authority := "", path := "/a/b.png",
    query := stringifyFlat [("path", JLit.str "/pics/b.png"), ("commit", JLit.str "c1")],
    fragment := "" }

/-- A URI with an empty query. -/
def emptyQueryUri : Uri :=
  { scheme := "pr", authority := "", path := "/f", query := "", fragment := "" }

/-- A URI whose query is valid JSON of the wrong shape (a bare number). -/
def numQueryUri : Uri :=
  { scheme := "pr", authority := "", path := "/f", query := "5", fragment := "" }

/-- A `file`-scheme URI with path `/a/b.txt`. -/
def fileUriAB : Uri :=
  { scheme := "file", authority := "", path := "/a/b.txt", query := "", fragment := "" }

/-- A `file`-scheme URI with path `/a`. -/
def fileUriA : Uri :=
  { scheme := "file", authority := "", path := "/a", query := "", fragment := "" }

/-- A non-`file`-scheme URI. -/
def reviewSchemeUri : Uri :=
  { scheme := "review", authority := "", path := "/p", query := "", fragment := "" }

/-- A workspace-root URI with path `/root`. -/
def rootUriR : Uri :=
  { scheme := "file", authority := "", path := "/root", query := "", fragment := "" }

/-- Options with `base: true` and `replaceFileExtension` absent. -/
def baseTrueOptions : GitUriOptions :=
  { replaceFileExtension := none, submoduleOf := none, base := true }

/-- Options with `replaceFileExtension: true`. -/
def replaceExtOptions : GitUriOptions :=
  { replaceFileExtension := some true, submoduleOf := none, base := true }

/-- A sample PR model: number 7 on remote `origin`. -/
def samplePR : PullRequestModel :=
  { number := 7, githubRepository := { remote := { remoteName := "origin" } } }

/-- `hexVal` inverts `hexDigitChar` on hex digit values. -/
theorem hexVal_hexDigitChar (n : Nat) (h : n < 16) :
    hexVal (hexDigitChar n) = some n := by
  interval_cases n <;> decide

/-- `digitVal` inverts `digitChar` on decimal digit values. -/
theorem digitVal_digitChar (d : Nat) (h : d < 10) :
    digitVal (digitChar d) = some d := by
  interval_cases d <;> decide

/-- Parsing the escaped form of a string body, followed by the closing
quote, recovers exactly the original characters.  Any fuel beyond the
number of original characters is sufficient. -/
theorem parseStr_escStr (s : List Char) (f : Nat) (rest : List Char) (hf : s.length < f) :
    parseStr f (escStr s ++ '"' :: rest) = some (s, rest) := by
  induction s generalizing f with
  | nil =>
    obtain ⟨g, rfl⟩ : ∃ g, f = g + 1 := ⟨f - 1, by omega⟩
    simp [escStr, parseStr]
  | cons c cs ih =>
    obtain ⟨g, rfl⟩ : ∃ g, f = g + 1 := ⟨f - 1, by omega⟩
    have ihg := ih g (by simp at hf; omega)
    rw [escStr, List.append_assoc]
    by_cases h1 : c = '"'
    · subst h1
      show (parseStr g (escStr cs ++ '"' :: rest)).map _ = _
      rw [ihg]
      rfl
    by_cases h2 : c = '\\'
    · subst h2
      show (parseStr g (escStr cs ++ '"' :: rest)).map _ = _
      rw [ihg]
      rfl
    by_cases h3 : c = '\x08'
    · subst h3
      show (parseStr g (escStr cs ++ '"' :: rest)).map _ = _
      rw [ihg]
      rfl
    by_cases h4 : c = '\t'
    · subst h4
      show (parseStr g (escStr cs ++ '"' :: rest)).map _ = _
      rw [ihg]
      rfl
    by_cases h5 : c = '\n'
    · subst h5
      show (parseStr g (escStr cs ++ '"' :: rest)).map _ = _
      rw [ihg]
      rfl
    by_cases h6 : c = '\x0c'
    · subst h6
      show (parseStr g (escStr cs ++ '"' :: rest)).map _ = _
      rw [ihg]
      rfl
    by_cases h7 : c = '\r'
    · subst h7
      show (parseStr g (escStr cs ++ '"' :: rest)).map _ = _
      rw [ihg]
      rfl
    by_cases h8 : c.toNat < 0x20
    · have e1 : escChar c =
          ['\\', 'u', '0', '0', hexDigitChar (c.toNat / 16), hexDigitChar (c.toNat % 16)] := by
        simp [escChar, h1, h2, h3, h4, h5, h6, h7, h8]
      have hv1 : hexVal (hexDigitChar (c.toNat / 16)) = some (c.toNat / 16) :=
        hexVal_hexDigitChar _ (by omega)
      have hv0 : hexVal (hexDigitChar (c.toNat % 16)) = some (c.toNat % 16) :=
        hexVal_hexDigitChar _ (by omega)
      have h00 : hexVal '0' = some 0 := by decide
      have step : unescape ('u' :: '0' :: '0' :: hexDigitChar (c.toNat / 16) ::
          hexDigitChar (c.toNat % 16) :: (escStr cs ++ '"' :: rest)) =
          some (c, escStr cs ++ '"' :: rest) := by
        simp only [unescape, h00, hv1, hv0]
        rw [if_pos (by omega)]
        have hn : ((0 * 16 + 0) * 16 + c.toNat / 16) * 16 + c.toNat % 16 = c.toNat := by omega
        rw [hn, Char.ofNat_toNat]
      rw [e1]
      simp only [List.cons_append, parseStr]
      simp [step, ihg]
    · have e1 : escChar c = [c] := by
        simp [escChar, h1, h2, h3, h4, h5, h6, h7, h8]
      rw [e1]
      simp only [List.singleton_append, parseStr]
      rw [if_neg h1, if_neg h2, if_neg h8]
      simp [ihg]
/-- The digits produced by `natDigits` all satisfy `digitVal`. -/
theorem natDigits_digits (fuel n : Nat) (h : n < fuel) :
    ∀ c ∈ natDigits fuel n, (digitVal c).isSome := by
  induction fuel generalizing n with
  | zero => omega
  | succ f ih =>
    rw [natDigits]
    by_cases h10 : n < 10
    · rw [if_pos h10]
      intro c hc
      simp at hc
      subst hc
      rw [digitVal_digitChar n h10]
      rfl
    · rw [if_neg h10]
      intro c hc
      rcases List.mem_append.mp hc with hA | hB
      · exact ih (n / 10) (by omega) c hA
      · simp at hB
        subst hB
        rw [digitVal_digitChar _ (by omega)]
        rfl

/-- Folding the digit-accumulation step over the digits of `n` starting from
`acc` yields `acc` shifted past those digits plus `n`. -/
theorem natDigits_foldl (fuel n acc : Nat) (h : n < fuel) :
    (natDigits fuel n).foldl (fun a c => a * 10 + (digitVal c).getD 0) acc =
      acc * 10 ^ (natDigits fuel n).length + n := by
  induction fuel generalizing n acc with
  | zero => omega
  | succ f ih =>
    rw [natDigits]
    by_cases h10 : n < 10
    · rw [if_pos h10]
      simp [digitVal_digitChar n h10]
    · rw [if_neg h10]
      rw [List.foldl_append, ih (n / 10) acc (by omega)]
      have hd : digitVal (digitChar (n % 10)) = some (n % 10) :=
        digitVal_digitChar _ (by omega)
      simp only [List.foldl_cons, List.foldl_nil, hd, Option.getD_some,
        List.length_append, List.length_cons, List.length_nil]
      calc (acc * 10 ^ (natDigits f (n / 10)).length + n / 10) * 10 + n % 10
          = acc * (10 ^ (natDigits f (n / 10)).length * 10) + (n / 10 * 10 + n % 10) := by
            ring
        _ = acc * 10 ^ ((natDigits f (n / 10)).length + 1) + n := by
            rw [pow_succ, Nat.div_add_mod']

/-- `takeDigits` consumes exactly a leading run of digit characters,
folding in their values. -/
theorem takeDigits_append (L : List Char) (hL : ∀ c ∈ L, (digitVal c).isSome)
    (acc : Nat) (rest : List Char) (hrest : headDigit rest = false) :
    takeDigits acc (L ++ rest) =
      (L.foldl (fun a c => a * 10 + (digitVal c).getD 0) acc, rest) := by
  induction L generalizing acc with
  | nil =>
    simp only [List.nil_append, List.foldl_nil]
    cases rest with
    | nil => rfl
    | cons c r =>
      rw [takeDigits]
      cases hdv : digitVal c with
      | none => rfl
      | some v => simp [headDigit, hdv] at hrest
  | cons d L ih =>
    have hd := hL d (by simp)
    obtain ⟨v, hv⟩ := Option.isSome_iff_exists.mp hd
    simp only [List.cons_append, takeDigits, hv, List.append_eq]
    rw [ih (fun c hc => hL c (by simp [hc])) (acc * 10 + v)]
    simp [hv]
/-- For positive `n` the digit string starts with a nonzero digit. -/
theorem natDigits_head (fuel n : Nat) (h : n < fuel) (hn : 0 < n) :
    ∃ d tl, natDigits fuel n = digitChar d :: tl ∧ 0 < d ∧ d < 10 := by
  induction fuel generalizing n with
  | zero => omega
  | succ f ih =>
    rw [natDigits]
    by_cases h10 : n < 10
    · rw [if_pos h10]
      exact ⟨n, [], rfl, hn, h10⟩
    · rw [if_neg h10]
      obtain ⟨d, tl, he, hd0, hd10⟩ := ih (n / 10) (by omega) (by omega)
      exact ⟨d, tl ++ [digitChar (n % 10)], by rw [he]; rfl, hd0, hd10⟩

/-- Digit characters are digits and differ from the characters the
value-level branches of the parser dispatch on. -/
theorem digitChar_facts (d : Nat) (h : d < 10) :
    (digitVal (digitChar d)).isSome ∧
      digitChar d ≠ 't' ∧ digitChar d ≠ 'f' ∧ digitChar d ≠ 'n' ∧
      digitChar d ≠ '"' ∧ digitChar d ≠ '{' ∧ digitChar d ≠ '[' ∧
      digitChar d ≠ '-' ∧
      ¬(digitChar d = ' ' ∨ digitChar d = '\t' ∨ digitChar d = '\n' ∨ digitChar d = '\r') := by
  interval_cases d <;> exact ⟨by decide, by decide, by decide, by decide, by decide,
    by decide, by decide, by decide, by decide⟩

/-- A nonzero leading digit differs from `'0'`. -/
theorem digitChar_ne_zero (d : Nat) (h0 : 0 < d) (h : d < 10) :
    digitChar d ≠ '0' := by
  interval_cases d <;> decide

/-- `parseNat` inverts `natDigits` when the following input does not start
with a digit. -/
theorem parseNat_natDigits (fuel n : Nat) (rest : List Char) (h : n < fuel)
    (hrest : headDigit rest = false) :
    parseNat (natDigits fuel n ++ rest) = some (n, rest) := by
  rcases Nat.eq_zero_or_pos n with rfl | hn
  · obtain ⟨g, rfl⟩ : ∃ g, fuel = g + 1 := ⟨fuel - 1, by omega⟩
    rw [natDigits, if_pos (by omega)]
    show parseNat ('0' :: rest) = some (0, rest)
    rw [parseNat, if_pos rfl, if_neg (by simp [hrest])]
  · obtain ⟨d, tl, he, hd0, hd10⟩ := natDigits_head fuel n h hn
    rw [he, List.cons_append, parseNat]
    rw [if_neg (digitChar_ne_zero d hd0 hd10)]
    have hdv : digitVal (digitChar d) = some d := digitVal_digitChar d hd10
    simp only [hdv]
    rw [if_neg (by omega)]
    have htl : ∀ c ∈ tl, (digitVal c).isSome := by
      intro c hc
      exact natDigits_digits fuel n h c (by rw [he]; simp [hc])
    rw [takeDigits_append tl htl d rest hrest]
    have hfold := natDigits_foldl fuel n 0 h
    rw [he] at hfold
    simp only [List.foldl_cons, hdv, Option.getD_some, Nat.zero_mul, Nat.zero_add] at hfold
    rw [hfold]
/-- Escaping a character emits at least one character. -/
theorem escChar_length (c : Char) : 1 ≤ (escChar c).length := by
  rw [escChar]
  split_ifs <;> simp

/-- Escaping never shrinks a string. -/
theorem escStr_length (s : List Char) : s.length ≤ (escStr s).length := by
  induction s with
  | nil => simp [escStr]
  | cons c cs ih =>
    rw [escStr, List.length_append, List.length_cons]
    have := escChar_length c
    omega

/-- The digit string of any `m` (with the fuel `intChars` uses) starts with
a digit character. -/
theorem natDigits_head_any (m : Nat) :
    ∃ d tl, natDigits (m + 1) m = digitChar d :: tl ∧ d < 10 := by
  rcases Nat.eq_zero_or_pos m with rfl | hm
  · exact ⟨0, [], rfl, by omega⟩
  · obtain ⟨d, tl, he, h0, h10⟩ := natDigits_head (m + 1) m (by omega) hm
    exact ⟨d, tl, he, h10⟩

/-- `parseVal` recovers any literal value from its serialized characters,
leaving the rest of the input (which must not start with a digit, so that a
number literal ends where it should). -/
theorem parseVal_lit (v : JLit) (f : Nat) (rest : List Char)
    (hrest : headDigit rest = false) :
    parseVal (f + 1) (JLit.chars v ++ rest) = some (v.toJson, rest) := by
  cases v with
  | bool b => cases b <;> rfl
  | null => rfl
  | str s =>
    have hT : JLit.chars (JLit.str s) ++ rest = '"' :: (escStr s.data ++ '"' :: rest) := by
      simp [JLit.chars, quoteStr]
    have hlen : s.data.length < (escStr s.data ++ '"' :: rest).length + 1 := by
      have := escStr_length s.data
      rw [List.length_append]
      omega
    rw [hT]
    show (parseStr ((escStr s.data ++ '"' :: rest).length + 1)
        (escStr s.data ++ '"' :: rest)).map (fun p => (Json.str ⟨p.1⟩, p.2)) =
      some ((JLit.str s).toJson, rest)
    rw [parseStr_escStr s.data _ rest hlen]
    rfl
  | num n =>
    by_cases hneg : n < 0
    · have hT : JLit.chars (JLit.num n) ++ rest =
          '-' :: (natDigits (n.natAbs + 1) n.natAbs ++ rest) := by
        simp [JLit.chars, intChars, if_pos hneg]
      rw [hT]
      show (parseNat (natDigits (n.natAbs + 1) n.natAbs ++ rest)).map
          (fun p => (Json.num (-(p.1 : Int)), p.2)) = some ((JLit.num n).toJson, rest)
      rw [parseNat_natDigits (n.natAbs + 1) n.natAbs rest (by omega) hrest]
      have hval : -(n.natAbs : Int) = n := by omega
      simp only [Option.map_some', JLit.toJson, hval]
    · obtain ⟨d, tl, he, h10⟩ := natDigits_head_any n.toNat
      have hT : JLit.chars (JLit.num n) ++ rest = digitChar d :: (tl ++ rest) := by
        simp [JLit.chars, intChars, if_neg hneg, he]
      obtain ⟨hdig, ht, hf', hn', hq, hob, hbk, hmin, hws⟩ := digitChar_facts d h10
      rw [hT]
      simp only [parseVal]
      have hsk : skipWs (digitChar d :: (tl ++ rest)) = digitChar d :: (tl ++ rest) := by
        rw [skipWs, if_neg hws]
      rw [hsk]
      simp only []
      rw [if_neg ht, if_neg hf', if_neg hn', if_neg hq, if_neg hob, if_neg hbk, if_neg hmin]
      have hpn : parseNat (digitChar d :: (tl ++ rest)) = some (n.toNat, rest) := by
        rw [show digitChar d :: (tl ++ rest) = (digitChar d :: tl) ++ rest from rfl, ← he]
        exact parseNat_natDigits _ _ rest (by omega) hrest
      rw [hpn]
      have : (n.toNat : Int) = n := by omega
      simp [JLit.toJson, this]
/-- `skipWs` is the identity on input starting with a non-whitespace
character. -/
theorem skipWs_cons (c : Char) (l : List Char)
    (h : ¬(c = ' ' ∨ c = '\t' ∨ c = '\n' ∨ c = '\r')) : skipWs (c :: l) = c :: l := by
  rw [skipWs, if_neg h]

/-- Parsing one serialized `"key":value` member reduces to the
separator-or-close dispatch on the remaining input. -/
theorem parseMembers_member (k : String) (v : JLit) (g : Nat) (after : List Char)
    (hd : headDigit after = false) :
    parseMembers (g + 1 + 1) ('"' :: (escStr k.data ++ '"' :: (':' :: (JLit.chars v ++ after)))) =
      (match skipWs after with
       | ',' :: r4 => (parseMembers (g + 1) r4).map fun tp => ((k, v.toJson) :: tp.1, tp.2)
       | '}' :: r4 => some ([(k, v.toJson)], r4)
       | _ => none) := by
  simp only [parseMembers]
  rw [skipWs_cons _ _ (by decide)]
  simp only []
  have hlen : k.data.length <
      (escStr k.data ++ '"' :: (':' :: (JLit.chars v ++ after))).length + 1 := by
    have := escStr_length k.data
    rw [List.length_append]
    omega
  rw [parseStr_escStr k.data _ _ hlen]
  simp only [Option.some_bind]
  rw [skipWs_cons _ _ (by decide)]
  simp only []
  rw [parseVal_lit v g after hd]
  simp only [Option.some_bind]
/-- `parseMembers` recovers a non-empty field list from its serialized
members followed by the closing brace. -/
theorem parseMembers_membersChars (fields : List (String × JLit)) (fuel : Nat)
    (rest : List Char) (hne : fields ≠ []) (hfuel : fields.length + 1 ≤ fuel) :
    parseMembers fuel (membersChars fields ++ '}' :: rest) =
      some (fields.map fun kv => (kv.1, kv.2.toJson), rest) := by
  induction fields generalizing fuel rest with
  | nil => exact absurd rfl hne
  | cons kv tail ih =>
    obtain ⟨k, v⟩ := kv
    obtain ⟨g, rfl⟩ : ∃ g', fuel = g' + 1 + 1 := ⟨fuel - 2, by simp at hfuel; omega⟩
    cases tail with
    | nil =>
      have hT : membersChars [(k, v)] ++ '}' :: rest =
          '"' :: (escStr k.data ++ '"' :: (':' :: (JLit.chars v ++ '}' :: rest))) := by
        simp [membersChars, quoteStr]
      rw [hT, parseMembers_member k v g ('}' :: rest) (by rfl)]
      rw [skipWs_cons _ _ (by decide)]
      rfl
    | cons kv2 tail2 =>
      have hT : membersChars ((k, v) :: kv2 :: tail2) ++ '}' :: rest =
          '"' :: (escStr k.data ++ '"' :: (':' :: (JLit.chars v ++
            ',' :: (membersChars (kv2 :: tail2) ++ '}' :: rest)))) := by
        simp [membersChars, quoteStr]
      rw [hT, parseMembers_member k v g _ (by rfl)]
      rw [skipWs_cons _ _ (by decide)]
      simp only []
      rw [ih (g + 1) rest (by simp) (by simp at hfuel ⊢; omega)]
      rfl
/-- A serialized flat object parses back to exactly its field list. -/
theorem parseVal_flat (fields : List (String × JLit)) (f : Nat) (rest : List Char)
    (hf : fields.length + 1 ≤ f) :
    parseVal (f + 1) (flatChars fields ++ rest) = some (jsonOfFields fields, rest) := by
  have hT : flatChars fields ++ rest = '{' :: (membersChars fields ++ '}' :: rest) := by
    simp [flatChars]
  rw [hT]
  cases fields with
  | nil => rfl
  | cons kv tail =>
    obtain ⟨k, v⟩ := kv
    obtain ⟨X, hX⟩ : ∃ X, membersChars ((k, v) :: tail) ++ '}' :: rest = '"' :: X := by
      cases tail with
      | nil =>
        refine ⟨escStr k.data ++ '"' :: ':' :: (JLit.chars v ++ '}' :: rest), ?_⟩
        simp [membersChars, quoteStr]
      | cons kv2 tail2 =>
        refine ⟨escStr k.data ++ '"' :: ':' ::
          (JLit.chars v ++ ',' :: (membersChars (kv2 :: tail2) ++ '}' :: rest)), ?_⟩
        simp [membersChars, quoteStr]
    rw [hX]
    show (parseMembers f ('"' :: X)).map (fun p => (Json.obj p.1, p.2)) =
      some (jsonOfFields ((k, v) :: tail), rest)
    rw [← hX, parseMembers_membersChars ((k, v) :: tail) f rest (by simp) hf]
    rfl

/-- A quoted string occupies at least its two quotes. -/
theorem quoteStr_length (s : String) : 2 ≤ (quoteStr s).length := by
  simp [quoteStr]

/-- The serialized members are at least as many characters as there are
fields. -/
theorem membersChars_length (fields : List (String × JLit)) :
    fields.length ≤ (membersChars fields).length := by
  induction fields with
  | nil => simp [membersChars]
  | cons kv tail ih =>
    obtain ⟨k, v⟩ := kv
    cases tail with
    | nil =>
      have h1 := quoteStr_length k
      simp [membersChars]
      omega
    | cons kv2 tail2 =>
      have h1 := quoteStr_length k
      have h2 := ih
      simp [membersChars] at h2 ⊢
      omega

/-- `Json.parse` inverts `stringifyFlat`: the composition is the identity on
flat records, with the fuel `Json.parse` supplies. -/
theorem parse_stringifyFlat (fields : List (String × JLit)) :
    Json.parse (stringifyFlat fields) = some (jsonOfFields fields) := by
  rw [Json.parse]
  have hdata : (stringifyFlat fields).data = flatChars fields := rfl
  rw [hdata]
  have hlen : (flatChars fields).length = (membersChars fields).length + 2 := by
    simp [flatChars]
  have hparse := parseVal_flat fields ((membersChars fields).length + 2) []
    (by have := membersChars_length fields; omega)
  rw [List.append_nil] at hparse
  rw [hlen, hparse]
  rfl
/-- `fromReviewUri` on a stringified `ReviewUriParams` record yields exactly
the record's JSON object. -/
theorem fromReviewUri_stringifyReview (p : ReviewUriParams) :
    fromReviewUri (stringifyReview p) = Except.ok (reviewJson p) := by
  rw [fromReviewUri, stringifyReview, reviewJson, parse_stringifyFlat]

/-- Reading the properties of a `ReviewUriParams` JSON object recovers the
record exactly. -/
theorem reviewParamsOfJson_reviewJson (p : ReviewUriParams) :
    reviewParamsOfJson (reviewJson p) = some p := by
  obtain ⟨path, ref, commit, base, isOutdated, rootPath⟩ := p
  cases ref <;> cases commit <;>
    simp [reviewParamsOfJson, reviewJson, reviewFields, jsonOfFields, jget, jgetFields,
      JLit.toJson, optStrProp]

/-- The `path` property of a `ReviewUriParams` JSON object is the record's
`path`. -/
theorem jget_reviewJson_path (p : ReviewUriParams) :
    jget (reviewJson p) "path" = some (Json.str p.path) := by
  obtain ⟨path, ref, commit, base, isOutdated, rootPath⟩ := p
  cases ref <;> cases commit <;>
    simp [reviewJson, reviewFields, jsonOfFields, jget, jgetFields, JLit.toJson]

/-- The properties of a `PRUriParams` JSON object are the record's fields. -/
theorem jget_prJson (p : PRUriParams) :
    jget (prJson p) "baseCommit" = some (Json.str p.baseCommit) ∧
    jget (prJson p) "headCommit" = some (Json.str p.headCommit) ∧
    jget (prJson p) "isBase" = some (Json.bool p.isBase) ∧
    jget (prJson p) "fileName" = some (Json.str p.fileName) ∧
    jget (prJson p) "prNumber" = some (Json.num p.prNumber) ∧
    jget (prJson p) "status" = some (Json.num p.status.code) ∧
    jget (prJson p) "remoteName" = some (Json.str p.remoteName) := by
  refine ⟨?_, ?_, ?_, ?_, ?_, ?_, ?_⟩ <;>
    simp [prJson, prFields, jsonOfFields, jget, jgetFields, JLit.toJson]
/-- Destructuring any non-`null` parse result succeeds. -/
theorem destructureGuard_ok (j : Json) (h : j ≠ Json.null) :
    destructureGuard j = Except.ok () := by
  cases j
  · exact absurd rfl h
  all_goals rfl

/-- C1: for every input to `toReviewUri`, `fromReviewUri` applied to the
query of the produced URI succeeds with exactly the JSON object of the
`params` record `toReviewUri` built, and reading that object's properties
recovers every field of the record exactly (the scheme is not carried in
the query). -/
theorem review_uri_roundtrip (uri : Uri) (filePath : Option String) (ref : Option String)
    (commit : String) (isOutdated : Bool) (options : GitUriOptions) (rootUri : Uri) :
    fromReviewUri (toReviewUri uri filePath ref commit isOutdated options rootUri).query =
      Except.ok (reviewJson (mkReviewUriParams uri filePath ref commit isOutdated options rootUri)) ∧
    reviewParamsOfJson
        (reviewJson (mkReviewUriParams uri filePath ref commit isOutdated options rootUri)) =
      some (mkReviewUriParams uri filePath ref commit isOutdated options rootUri) :=
  ⟨fromReviewUri_stringifyReview _, reviewParamsOfJson_reviewJson _⟩

/-- C3: `fromReviewUri` parses its query as JSON; a parse failure is thrown
to the caller (`Except.error`), never a silent "no value", and a successful
parse returns the parsed value. -/
theorem fromReviewUri_propagates (q : String) :
    (Json.parse q = none → fromReviewUri q = Except.error ()) ∧
    ∀ j, Json.parse q = some j → fromReviewUri q = Except.ok j := by
  constructor
  · intro h
    rw [fromReviewUri, h]
  · intro j h
    rw [fromReviewUri, h]

/-- C3 witness: the non-JSON query `not json` throws. -/
theorem fromReviewUri_propagates_witness :
    fromReviewUri "not json" = Except.error () :=
  (fromReviewUri_propagates "not json").1 rfl

/-- C5: `resolvePath` resolves with the platform-native service against the
URI's filesystem path for `file`-scheme URIs, and with the POSIX service
against the URI's path for every other scheme. -/
theorem resolvePath_scheme_dispatch (pl : Platform) (src : Uri) (dest : String) :
    (src.scheme = Schemas.file → resolvePath pl src dest = pl.resolve (pl.fsPath src) dest) ∧
    (src.scheme ≠ Schemas.file → resolvePath pl src dest = pl.posixResolve src.path dest) := by
  constructor
  · intro h
    rw [resolvePath, if_pos h]
  · intro h
    rw [resolvePath, if_neg h]

/-- C5 witness: a `file`-scheme URI uses the native service, a
`review`-scheme URI the POSIX one. -/
theorem resolvePath_scheme_dispatch_witness :
    resolvePath idPlatform fileUriA "x" = "N:/a|x" ∧
    resolvePath idPlatform reviewSchemeUri "x" = "P:/p|x" :=
  ⟨((resolvePath_scheme_dispatch idPlatform fileUriA "x").1 rfl).trans rfl,
    ((resolvePath_scheme_dispatch idPlatform reviewSchemeUri "x").2 (by decide)).trans rfl⟩

/-- C6: `toReviewUri` with `replaceFileExtension` set appends exactly one
literal `.git` to the input URI's path regardless of any existing
extension; with it unset the path is unchanged; `toPRUri` (which has no
such option) always leaves the path unchanged. -/
theorem replaceFileExtension_path (uri : Uri) (filePath : Option String) (ref : Option String)
    (commit : String) (isOutdated : Bool) (options : GitUriOptions) (rootUri : Uri)
    (m : PullRequestModel) (baseCommit headCommit fileName : String) (base : Bool)
    (status : GitChangeType) :
    (options.replaceFileExtension = some true →
      (toReviewUri uri filePath ref commit isOutdated options rootUri).path = uri.path ++ ".git") ∧
    (options.replaceFileExtension ≠ some true →
      (toReviewUri uri filePath ref commit isOutdated options rootUri).path = uri.path) ∧
    (toPRUri uri m baseCommit headCommit fileName base status).path = uri.path := by
  refine ⟨?_, ?_, rfl⟩
  · intro h
    simp [toReviewUri, h]
  · intro h
    simp [toReviewUri, h]

/-- C6 witness: `.git` is appended over an existing `.txt` extension when
the option is set, and the path survives unchanged when it is not. -/
theorem replaceFileExtension_path_witness :
    (toReviewUri fileUriAB none none "c" false replaceExtOptions rootUriR).path = "/a/b.txt.git" ∧
    (toReviewUri fileUriAB none none "c" false baseTrueOptions rootUriR).path = "/a/b.txt" ∧
    (toPRUri fileUriAB samplePR "b1" "h1" "f" true GitChangeType.MODIFY).path = "/a/b.txt" :=
  ⟨((replaceFileExtension_path fileUriAB none none "c" false replaceExtOptions rootUriR
      samplePR "b1" "h1" "f" true GitChangeType.MODIFY).1 rfl).trans rfl,
    ((replaceFileExtension_path fileUriAB none none "c" false baseTrueOptions rootUriR
      samplePR "b1" "h1" "f" true GitChangeType.MODIFY).2.1 (by decide)).trans rfl,
    (replaceFileExtension_path fileUriAB none none "c" false baseTrueOptions rootUriR
      samplePR "b1" "h1" "f" true GitChangeType.MODIFY).2.2.trans rfl⟩

/-- C7: `toPRUri` produces a `pr`-scheme URI, preserves the input URI's
path, and its query JSON carries `prNumber` from the model's `number`,
`remoteName` from the model's repository remote, and the supplied
`baseCommit`, `headCommit`, `isBase`, `fileName` and `status`. -/
theorem toPRUri_spec (uri : Uri) (m : PullRequestModel) (baseCommit headCommit fileName : String)
    (base : Bool) (status : GitChangeType) :
    (toPRUri uri m baseCommit headCommit fileName base status).scheme = "pr" ∧
    (toPRUri uri m baseCommit headCommit fileName base status).path = uri.path ∧
    Json.parse (toPRUri uri m baseCommit headCommit fileName base status).query =
      some (prJson (mkPRUriParams m baseCommit headCommit fileName base status)) ∧
    jget (prJson (mkPRUriParams m baseCommit headCommit fileName base status)) "prNumber" =
      some (Json.num m.number) ∧
    jget (prJson (mkPRUriParams m baseCommit headCommit fileName base status)) "remoteName" =
      some (Json.str m.githubRepository.remote.remoteName) ∧
    jget (prJson (mkPRUriParams m baseCommit headCommit fileName base status)) "baseCommit" =
      some (Json.str baseCommit) ∧
    jget (prJson (mkPRUriParams m baseCommit headCommit fileName base status)) "headCommit" =
      some (Json.str headCommit) ∧
    jget (prJson (mkPRUriParams m baseCommit headCommit fileName base status)) "isBase" =
      some (Json.bool base) ∧
    jget (prJson (mkPRUriParams m baseCommit headCommit fileName base status)) "fileName" =
      some (Json.str fileName) ∧
    jget (prJson (mkPRUriParams m baseCommit headCommit fileName base status)) "status" =
      some (Json.num status.code) := by
  have h := jget_prJson (mkPRUriParams m baseCommit headCommit fileName base status)
  exact ⟨rfl, rfl, parse_stringifyFlat _, h.2.2.2.2.1, h.2.2.2.2.2.2, h.1, h.2.1, h.2.2.1,
    h.2.2.2.1, h.2.2.2.2.2.1⟩

/-- C9: `fromFileChangeNodeUri` on a URI with an empty (falsy) query returns
"no value" directly, before any parsing. -/
theorem fromFileChangeNodeUri_empty_query (uri : Uri) (h : uri.query = "") :
    fromFileChangeNodeUri uri = none := by
  rw [fromFileChangeNodeUri, if_pos h]

/-- C9 witness: a concrete URI with empty query. -/
theorem fromFileChangeNodeUri_empty_query_witness :
    fromFileChangeNodeUri emptyQueryUri = none :=
  fromFileChangeNodeUri_empty_query emptyQueryUri rfl
/-- C2 counterexample: on the valid-JSON wrong-shape query `5`, `fromPRUri`
returns the parsed value (the unchecked cast passes the number through),
not "no value" as the claim states. -/
theorem fromPRUri_wrong_shape_counterexample :
    fromPRUri numQueryUri = some (Json.num 5) ∧ ¬fromPRUri numQueryUri = none := by
  constructor
  · rfl
  · intro h
    rw [show fromPRUri numQueryUri = some (Json.num 5) from rfl] at h
    exact Option.noConfusion h

/-- C2 amended: `fromPRUri`, `fromGitHubURI` and `fromFileChangeNodeUri`
never throw; on the empty query and on `not json` all three return "no
value"; but on a query that parses as JSON they return the parsed value as
is — the record casts are unchecked, so wrong-shape JSON is passed through,
not mapped to "no value". -/
theorem from_uri_swallow_amended (uri : Uri) :
    (uri.query = "" →
      fromPRUri uri = none ∧ fromGitHubURI uri = none ∧ fromFileChangeNodeUri uri = none) ∧
    (uri.query = "not json" →
      fromPRUri uri = none ∧ fromGitHubURI uri = none ∧ fromFileChangeNodeUri uri = none) ∧
    ∀ j, Json.parse uri.query = some j →
      fromPRUri uri = some j ∧ fromGitHubURI uri = some j ∧ fromFileChangeNodeUri uri = some j := by
  refine ⟨?_, ?_, ?_⟩
  · intro h
    have h0 : Json.parse "" = none := rfl
    exact ⟨by simp [fromPRUri, h, h0], by simp [fromGitHubURI, h, h0],
      by simp [fromFileChangeNodeUri, h]⟩
  · intro h
    have h0 : Json.parse "not json" = none := rfl
    exact ⟨by simp [fromPRUri, h, h0], by simp [fromGitHubURI, h, h0],
      by simp [fromFileChangeNodeUri, h, h0]⟩
  · intro j hj
    have hne : uri.query ≠ "" := by
      intro h
      rw [h, show Json.parse "" = none from rfl] at hj
      exact Option.noConfusion hj
    exact ⟨hj, hj, by simp [fromFileChangeNodeUri, hne, hj]⟩

/-- C2 witness: on the empty query all three return "no value". -/
theorem from_uri_swallow_amended_witness :
    fromPRUri emptyQueryUri = none ∧ fromGitHubURI emptyQueryUri = none ∧
      fromFileChangeNodeUri emptyQueryUri = none :=
  (from_uri_swallow_amended emptyQueryUri).1 rfl

/-- C8: the concrete scenario — `toReviewUri` on path `/a/b.txt` with no
`filePath`, ref `abc123`, commit `def456`, `isOutdated` false, options
`{base: true}` and root `/root` yields scheme `review`, path `/a/b.txt`,
exactly the expected query JSON text, and `fromReviewUri` on that query
reproduces the same object. -/
theorem toReviewUri_concrete_scenario :
    (toReviewUri fileUriAB none (some "abc123") "def456" false baseTrueOptions rootUriR).scheme =
      "review" ∧
    (toReviewUri fileUriAB none (some "abc123") "def456" false baseTrueOptions rootUriR).path =
      "/a/b.txt" ∧
    (toReviewUri fileUriAB none (some "abc123") "def456" false baseTrueOptions rootUriR).query =
      "\x7b\"path\":\"/a/b.txt\",\"ref\":\"abc123\",\"commit\":\"def456\",\"base\":true,\"isOutdated\":false,\"rootPath\":\"/root\"\x7d" ∧
    fromReviewUri
        (toReviewUri fileUriAB none (some "abc123") "def456" false baseTrueOptions rootUriR).query =
      Except.ok (Json.obj [("path", Json.str "/a/b.txt"), ("ref", Json.str "abc123"),
        ("commit", Json.str "def456"), ("base", Json.bool true), ("isOutdated", Json.bool false),
        ("rootPath", Json.str "/root")]) ∧
    reviewParamsOfJson (Json.obj [("path", Json.str "/a/b.txt"), ("ref", Json.str "abc123"),
        ("commit", Json.str "def456"), ("base", Json.bool true), ("isOutdated", Json.bool false),
        ("rootPath", Json.str "/root")]) =
      some ⟨"/a/b.txt", some "abc123", some "def456", true, false, "/root"⟩ :=
  ⟨rfl, rfl, rfl, rfl, rfl⟩

/-- C10 counterexample: with input path `/a` and the provided-but-falsy
`filePath` of `""` (and `replaceFileExtension` unset), the query's `path`
field is `/a` — the input URI's path, not the provided `filePath` — and it
equals the produced URI's own path even though `filePath` differs from the
input path. -/
theorem toReviewUri_query_path_counterexample :
    queryPathField (toReviewUri fileUriA (some "") (some "r") "c" false baseTrueOptions rootUriR) =
      some "/a" ∧
    (toReviewUri fileUriA (some "") (some "r") "c" false baseTrueOptions rootUriR).path = "/a" ∧
    (some "" : Option String) ≠ none ∧ "" ≠ "/a" :=
  ⟨rfl, rfl, by decide, by decide⟩

/-- C10 amended: the query's `path` field always equals the `path` of the
built params record; that field is `filePath` when `filePath` is provided
and non-empty (truthy), never with `.git` appended; the produced URI's own
path is the input URI's path, with `.git` appended there exactly when
`replaceFileExtension` is set; hence with `replaceFileExtension` unset, a
provided non-empty `filePath` differing from the input path makes the URI
path and the query `path` field differ. -/
theorem toReviewUri_query_path_amended (uri : Uri) (filePath : Option String)
    (ref : Option String) (commit : String) (isOutdated : Bool) (options : GitUriOptions)
    (rootUri : Uri) :
    queryPathField (toReviewUri uri filePath ref commit isOutdated options rootUri) =
      some (mkReviewUriParams uri filePath ref commit isOutdated options rootUri).path ∧
    (∀ s, filePath = some s → s ≠ "" →
      (mkReviewUriParams uri filePath ref commit isOutdated options rootUri).path = s) ∧
    (toReviewUri uri filePath ref commit isOutdated options rootUri).path =
      (if options.replaceFileExtension = some true then uri.path ++ ".git" else uri.path) ∧
    (options.replaceFileExtension ≠ some true → ∀ s, filePath = some s → s ≠ "" → s ≠ uri.path →
      (toReviewUri uri filePath ref commit isOutdated options rootUri).path ≠
        (mkReviewUriParams uri filePath ref commit isOutdated options rootUri).path) := by
  have hpath : ∀ s, filePath = some s → s ≠ "" →
      (mkReviewUriParams uri filePath ref commit isOutdated options rootUri).path = s := by
    intro s hs hne
    subst hs
    simp [mkReviewUriParams, hne]
  have hq : Json.parse (toReviewUri uri filePath ref commit isOutdated options rootUri).query =
      some (reviewJson (mkReviewUriParams uri filePath ref commit isOutdated options rootUri)) :=
    parse_stringifyFlat (reviewFields (mkReviewUriParams uri filePath ref commit isOutdated
      options rootUri))
  refine ⟨?_, hpath, rfl, ?_⟩
  · rw [queryPathField, hq]
    simp only []
    rw [jget_reviewJson_path]
  · intro hopt s hs hne hnepath
    rw [show (toReviewUri uri filePath ref commit isOutdated options rootUri).path =
      (if options.replaceFileExtension = some true then uri.path ++ ".git" else uri.path)
      from rfl]
    rw [if_neg hopt, hpath s hs hne]
    exact fun h => hnepath h.symm

/-- C10 amended witness: with `filePath` `/x` against input path `/a` and
the option unset, the URI path and the query `path` field differ. -/
theorem toReviewUri_query_path_amended_witness :
    (toReviewUri fileUriA (some "/x") (some "r") "c" false baseTrueOptions rootUriR).path ≠
      (mkReviewUriParams fileUriA (some "/x") (some "r") "c" false baseTrueOptions rootUriR).path :=
  (toReviewUri_query_path_amended fileUriA (some "/x") (some "r") "c" false baseTrueOptions
    rootUriR).2.2.2 (by decide) "/x" rfl (by decide) (by decide)
/-- C4 counterexample: with a query that parses, an object lookup reporting
`image/png` and a successful buffer fetch, a *rejected temporary-store
write* is not swallowed into "no value" — the write call's promise is
returned without `await`, so its rejection escapes the `try`/`catch` and
propagates to the caller. -/
theorem asImageDataURI_write_rejection_counterexample :
    asImageDataURI idPlatform failTempState pngRepository reviewImageUri = Except.error () ∧
    ¬asImageDataURI idPlatform failTempState pngRepository reviewImageUri = Except.ok none := by
  constructor
  · rfl
  · intro h
    rw [show asImageDataURI idPlatform failTempState pngRepository reviewImageUri =
      Except.error () from rfl] at h
    exact Except.noConfusion h

/-- C4 amended: `asImageDataURI` yields "no value" when the query does not
parse, when it parses to `null` (destructuring throws), when the object
lookup, type detection or buffer fetch throws, when the detected MIME type
is `text/plain`, when it is neither `text/plain` nor a recognized image
type, and when the `path` property is not a string (`dirname` throws); for
a recognized image type with a string `path` it returns the
temporary-store URI when the write resolves — but a write rejection
propagates to the caller instead of yielding "no value". -/
theorem asImageDataURI_spec_amended (pl : Platform) (temp : TemporaryState)
    (repo : Repository) (uri : Uri) :
    (Json.parse uri.query = none →
      asImageDataURI pl temp repo uri = Except.ok none) ∧
    (Json.parse uri.query = some Json.null →
      asImageDataURI pl temp repo uri = Except.ok none) ∧
    ∀ j, Json.parse uri.query = some j → j ≠ Json.null →
      (repo.getObjectDetails (refOf uri j) (pl.fsPath uri) = Except.error () →
        asImageDataURI pl temp repo uri = Except.ok none) ∧
      ∀ od, repo.getObjectDetails (refOf uri j) (pl.fsPath uri) = Except.ok od →
        (repo.detectObjectType od.object = Except.error () →
          asImageDataURI pl temp repo uri = Except.ok none) ∧
        ∀ mt, repo.detectObjectType od.object = Except.ok mt →
          (mt = "text/plain" → asImageDataURI pl temp repo uri = Except.ok none) ∧
          (mt ≠ "text/plain" → ImageMimetypes.contains mt = false →
            asImageDataURI pl temp repo uri = Except.ok none) ∧
          (ImageMimetypes.contains mt = true →
            (repo.buffer (refOf uri j) (pl.fsPath uri) = Except.error () →
              asImageDataURI pl temp repo uri = Except.ok none) ∧
            ∀ contents, repo.buffer (refOf uri j) (pl.fsPath uri) = Except.ok contents →
              ((∀ s, jget j "path" ≠ some (Json.str s)) →
                asImageDataURI pl temp repo uri = Except.ok none) ∧
              ∀ s, jget j "path" = some (Json.str s) →
                (∀ u2, temp.write (pl.dirname s) (pl.basename s) contents = Except.ok u2 →
                  asImageDataURI pl temp repo uri = Except.ok (some u2)) ∧
                (temp.write (pl.dirname s) (pl.basename s) contents = Except.error () →
                  asImageDataURI pl temp repo uri = Except.error ())) := by
  refine ⟨?_, ?_, ?_⟩
  · intro hq
    simp [asImageDataURI, asImageDataURITry, hq]
  · intro hq
    simp [asImageDataURI, asImageDataURITry, hq, destructureGuard]
  intro j hq hnull
  have hguard : destructureGuard j = Except.ok () := destructureGuard_ok j hnull
  have hcontains_ne : ImageMimetypes.contains "text/plain" = false := by decide
  refine ⟨?_, ?_⟩
  · intro hget
    simp [asImageDataURI, asImageDataURITry, hq, hguard, hget]
  intro od hget
  refine ⟨?_, ?_⟩
  · intro hdet
    simp [asImageDataURI, asImageDataURITry, hq, hguard, hget, hdet]
  intro mt hdet
  refine ⟨?_, ?_, ?_⟩
  · intro hmt
    subst hmt
    simp [asImageDataURI, asImageDataURITry, hq, hguard, hget, hdet]
  · intro hmt hc
    have hnm : ¬mt ∈ ImageMimetypes := by simpa using hc
    simp [asImageDataURI, asImageDataURITry, hq, hguard, hget, hdet, hmt, hnm]
  intro hc
  have hmem : mt ∈ ImageMimetypes := by simpa using hc
  have hmt : mt ≠ "text/plain" := by
    intro h
    rw [h, hcontains_ne] at hc
    exact Bool.noConfusion hc
  refine ⟨?_, ?_⟩
  · intro hbuf
    simp [asImageDataURI, asImageDataURITry, hq, hguard, hget, hdet, hmt, hmem, hbuf]
  intro contents hbuf
  refine ⟨?_, ?_⟩
  · intro hpath
    cases hjp : jget j "path" with
    | none =>
      simp [asImageDataURI, asImageDataURITry, hq, hguard, hget, hdet, hmt, hmem, hbuf, hjp]
    | some jv =>
      cases jv with
      | str s => exact absurd hjp (hpath s)
      | null =>
        simp [asImageDataURI, asImageDataURITry, hq, hguard, hget, hdet, hmt, hmem, hbuf, hjp]
      | bool b =>
        simp [asImageDataURI, asImageDataURITry, hq, hguard, hget, hdet, hmt, hmem, hbuf, hjp]
      | num n =>
        simp [asImageDataURI, asImageDataURITry, hq, hguard, hget, hdet, hmt, hmem, hbuf, hjp]
      | arr l =>
        simp [asImageDataURI, asImageDataURITry, hq, hguard, hget, hdet, hmt, hmem, hbuf, hjp]
      | obj fs =>
        simp [asImageDataURI, asImageDataURITry, hq, hguard, hget, hdet, hmt, hmem, hbuf, hjp]
  intro s hjp
  have hA : asImageDataURI pl temp repo uri =
      (temp.write (pl.dirname s) (pl.basename s) contents).map some := by
    simp [asImageDataURI, asImageDataURITry, hq, hguard, hget, hdet, hmt, hmem, hbuf, hjp]
  refine ⟨?_, ?_⟩
  · intro u2 hw
    rw [hA, hw]
    rfl
  · intro hw
    rw [hA, hw]
    rfl

/-- C4 amended witness: the all-successful run on a PNG returns the
temporary-store URI. -/
theorem asImageDataURI_spec_amended_witness :
    asImageDataURI idPlatform okTempState pngRepository reviewImageUri =
      Except.ok (some ⟨"file", "", "dir(/pics/b.png)/base(/pics/b.png)/bytes", "", ""⟩) :=
  ((((((asImageDataURI_spec_amended idPlatform okTempState pngRepository
    reviewImageUri).2.2 (Json.obj [("path", Json.str "/pics/b.png"), ("commit", Json.str "c1")])
    rfl (by intro h; exact Json.noConfusion h)).2 ⟨"blob"⟩ rfl).2 "image/png" rfl).2.2
    (by decide)).2 "bytes" rfl).2 "/pics/b.png" rfl |>.1
    ⟨"file", "", "dir(/pics/b.png)/base(/pics/b.png)/bytes", "", ""⟩ rfl
